/-
Verification of the arcaneering production-chain calculator
(resolution engine in `calculator.py`, class `ProductionCalculator`).

The engine is shallowly embedded: Python floats are modelled as exact
rationals (ℚ), Python dicts preserving insertion order as association
lists, and the (possibly non-terminating) mutual recursion between
`get_best_recipe` and `_get_raw_cost_recursive` is given a fuel
semantics — a result of `none` means the computation has not finished
within the given fuel, so "for every fuel the result is `none`" is a
proof of divergence.
-/
import Mathlib

namespace Arcane

/-- Recipe record, mirroring the `Recipe` dataclass of `calculator.py`.
`inputs`/`outputs` keep the Python dict's insertion order. -/
structure Recipe where
  id : String
  display_name : String
  inputs : List (String × Nat)
  outputs : List (String × Nat)
  production_time : ℚ
  building_type : String
  required_research : String
  energy_consumption : Nat
  mana_consumption : ℚ
  phase : Nat
  alternate_recipe : Bool
deriving DecidableEq, Repr

/-- `ProductionCalculator.BASE_RESOURCES` from `calculator.py`. -/
def BASE_RESOURCES : List String :=
  ["ORE", "MAGIC_ESSENCE", "SUNDROP", "GOLD_ORE", "ARCANE_CRYSTAL", "COAL", "CINDER",
   "WATER", "OIL", "LIMESTONE", "COPPER_ORE", "TIN_ORE", "SLAG", "SILVER_ORE",
   "CRYSTAL_ORE", "ADAMANTINE_ORE", "VOIDSTONE_ORE"]

/-- Python `d.get(k, default)` on an insertion-ordered dict of Nats. -/
def lookupD (l : List (String × Nat)) (k : String) (d : Nat) : Nat :=
  match l.find? (fun p => p.1 == k) with
  | some p => p.2
  | none => d

/-- `_index_recipes`: for a resource, the recipes whose outputs contain it,
in catalog order (`recipes_by_output`). -/
def recipesByOutput (C : List Recipe) (resource : String) : List Recipe :=
  C.filter (fun r => (r.outputs.map Prod.fst).contains resource)

/-- The candidate list of `get_best_recipe` after the phase filter only
(line 308 of `calculator.py`). -/
def phaseCandidates (C : List Recipe) (resource : String) (maxPhase : Nat) : List Recipe :=
  (recipesByOutput C resource).filter (fun r => decide (r.phase ≤ maxPhase))

/-- The candidate list of `get_best_recipe` after the phase filter and the
alternate-recipe policy (lines 308-312 of `calculator.py`): with alternates
disallowed every alternate recipe is dropped (the allow-list is not even
consulted); otherwise, when an allow-list is present, an alternate recipe
survives only if its id is listed. -/
def policyCandidates (C : List Recipe) (resource : String) (maxPhase : Nat)
    (allowAlternate : Bool) (allowedAlternates : Option (List String)) : List Recipe :=
  if !allowAlternate then
    (phaseCandidates C resource maxPhase).filter (fun r => !r.alternate_recipe)
  else
    match allowedAlternates with
    | some allowed =>
      (phaseCandidates C resource maxPhase).filter
        (fun r => !r.alternate_recipe || allowed.contains r.id)
    | none => phaseCandidates C resource maxPhase

/-- The selection loop of `get_best_recipe` (lines 329-344): running best
recipe, running best cost (`none` plays the role of `float('inf')`),
updated on strict improvement only. -/
def selectBest (best : Recipe) (bestCost : Option ℚ) : List (Recipe × ℚ) → Recipe
  | [] => best
  | (r, c) :: rest =>
    match bestCost with
    | none => selectBest r (some c) rest
    | some bc => if c < bc then selectBest r (some c) rest else selectBest best bestCost rest

mutual

/-- `get_best_recipe` (calculator.py lines 305-345) under fuel semantics:
`none` = the call has not returned within `fuel` nested calls,
`some none` = the Python function returned `None`,
`some (some r)` = it returned recipe `r`. -/
def getBestRecipe (C : List Recipe) (fuel : Nat) (resource : String) (maxPhase : Nat)
    (preferEfficient : Bool) (allowAlternate : Bool)
    (allowedAlternates : Option (List String)) : Option (Option Recipe) :=
  match fuel with
  | 0 => none
  | fuel + 1 =>
    if (policyCandidates C resource maxPhase allowAlternate allowedAlternates).isEmpty then
      some none
    else
      match filterValid C fuel maxPhase allowAlternate
          (policyCandidates C resource maxPhase allowAlternate allowedAlternates) with
      | none => none
      | some [] => some none
      | some (v0 :: vs) =>
        if preferEfficient && !vs.isEmpty then
          match effCosts C fuel resource maxPhase allowAlternate allowedAlternates (v0 :: vs) with
          | none => none
          | some pairs => some (some (selectBest v0 none pairs))
        else some (some v0)
termination_by (fuel, 0, 0)

/-- Reachability filter of `get_best_recipe` (lines 315-325): keep the
candidates all of whose inputs are producible. -/
def filterValid (C : List Recipe) (fuel : Nat) (maxPhase : Nat) (allowAlternate : Bool) :
    List Recipe → Option (List Recipe)
  | [] => some []
  | r :: rest =>
    match allInputsProducible C fuel maxPhase allowAlternate r.inputs with
    | none => none
    | some true =>
      match filterValid C fuel maxPhase allowAlternate rest with
      | none => none
      | some l => some (r :: l)
    | some false => filterValid C fuel maxPhase allowAlternate rest
termination_by l => (fuel, 2, l.length)

/-- Inner loop of the reachability filter (lines 317-323): each non-base
input's raw cost is estimated from a fresh empty visited set and with no
allow-list (the Python call omits `allowed_alternates`); the candidate is
rejected as soon as one such cost is at least 9999. -/
def allInputsProducible (C : List Recipe) (fuel : Nat) (maxPhase : Nat) (allowAlternate : Bool) :
    List (String × Nat) → Option Bool
  | [] => some true
  | (ires, _) :: rest =>
    if BASE_RESOURCES.contains ires then
      allInputsProducible C fuel maxPhase allowAlternate rest
    else
      match rawCostRecursive C fuel ires maxPhase allowAlternate [] none with
      | none => none
      | some c =>
        if (9999 : ℚ) ≤ c then some false
        else allInputsProducible C fuel maxPhase allowAlternate rest
termination_by l => (fuel, 1, l.length)

/-- Per-candidate raw cost of the efficiency ranking (lines 331-340):
base inputs cost 1, other inputs cost their recursive raw cost (computed
from a fresh empty visited set, this time passing `allowed_alternates`),
scaled by input-per-output. -/
def effCosts (C : List Recipe) (fuel : Nat) (resource : String) (maxPhase : Nat)
    (allowAlternate : Bool) (allowedAlternates : Option (List String)) :
    List Recipe → Option (List (Recipe × ℚ))
  | [] => some []
  | r :: rest =>
    match effInputsCost C fuel maxPhase allowAlternate allowedAlternates
        (lookupD r.outputs resource 1) r.inputs with
    | none => none
    | some c =>
      match effCosts C fuel resource maxPhase allowAlternate allowedAlternates rest with
      | none => none
      | some l => some ((r, c) :: l)
termination_by l => (fuel, 2, l.length)

/-- Input-cost summation of the efficiency ranking (lines 333-340).
Note: unlike `_get_raw_cost_recursive`, this loop does not skip the
`'NONE'` placeholder input. -/
def effInputsCost (C : List Recipe) (fuel : Nat) (maxPhase : Nat) (allowAlternate : Bool)
    (allowedAlternates : Option (List String)) (outA : Nat) :
    List (String × Nat) → Option ℚ
  | [] => some 0
  | (ires, iamt) :: rest =>
    if BASE_RESOURCES.contains ires then
      match effInputsCost C fuel maxPhase allowAlternate allowedAlternates outA rest with
      | none => none
      | some t => some ((iamt : ℚ) / (outA : ℚ) + t)
    else
      match rawCostRecursive C fuel ires maxPhase allowAlternate [] allowedAlternates with
      | none => none
      | some c =>
        match effInputsCost C fuel maxPhase allowAlternate allowedAlternates outA rest with
        | none => none
        | some t => some ((iamt : ℚ) / (outA : ℚ) * c + t)
termination_by l => (fuel, 1, l.length)

/-- `_get_raw_cost_recursive` (calculator.py lines 347-372) under fuel
semantics. Base resources cost 1; a resource already on the visited path
or without a qualifying recipe costs the sentinel 999999; otherwise the
cost is summed over the non-placeholder inputs of the recipe chosen with
`prefer_efficient=False`, each child receiving the extended path. -/
def rawCostRecursive (C : List Recipe) (fuel : Nat) (resource : String) (maxPhase : Nat)
    (allowAlternate : Bool) (visited : List String)
    (allowedAlternates : Option (List String)) : Option ℚ :=
  match fuel with
  | 0 => none
  | fuel + 1 =>
    if BASE_RESOURCES.contains resource then some 1
    else if visited.contains resource then some 999999
    else
      match getBestRecipe C fuel resource maxPhase false allowAlternate allowedAlternates with
      | none => none
      | some none => some 999999
      | some (some recipe) =>
        match inputsCost C fuel maxPhase allowAlternate (resource :: visited) allowedAlternates
            (lookupD recipe.outputs resource 1) recipe.inputs with
        | none => none
        | some (total, validInputs) =>
          if validInputs = 0 then some 999999 else some total
termination_by (fuel, 0, 0)

/-- Input loop of `_get_raw_cost_recursive` (lines 361-367): skip the
`'NONE'` placeholder, count the rest, and sum their scaled recursive
costs; every child gets its own copy of the extended visited path. -/
def inputsCost (C : List Recipe) (fuel : Nat) (maxPhase : Nat) (allowAlternate : Bool)
    (visited : List String) (allowedAlternates : Option (List String)) (outA : Nat) :
    List (String × Nat) → Option (ℚ × Nat)
  | [] => some (0, 0)
  | (ires, iamt) :: rest =>
    if ires = "NONE" then
      inputsCost C fuel maxPhase allowAlternate visited allowedAlternates outA rest
    else
      match rawCostRecursive C fuel ires maxPhase allowAlternate visited allowedAlternates with
      | none => none
      | some c =>
        match inputsCost C fuel maxPhase allowAlternate visited allowedAlternates outA rest with
        | none => none
        | some (t, n) => some ((iamt : ℚ) / (outA : ℚ) * c + t, n + 1)
termination_by l => (fuel, 1, l.length)

end

/-- `ProductionNode` dataclass of `calculator.py`: resource, required
rate (units/minute), resolved recipe (if any), building label, fractional
building count, depth, and child nodes. -/
inductive ProductionNode where
  | mk (resource : String) (quantity_per_minute : ℚ) (recipe : Option Recipe)
      (building_type : String) (building_count : ℚ) (depth : Nat)
      (children : List ProductionNode) : ProductionNode

def ProductionNode.resource : ProductionNode → String
  | .mk r _ _ _ _ _ _ => r

def ProductionNode.quantity_per_minute : ProductionNode → ℚ
  | .mk _ q _ _ _ _ _ => q

def ProductionNode.recipe : ProductionNode → Option Recipe
  | .mk _ _ rc _ _ _ _ => rc

def ProductionNode.building_type : ProductionNode → String
  | .mk _ _ _ bt _ _ _ => bt

def ProductionNode.building_count : ProductionNode → ℚ
  | .mk _ _ _ _ bc _ _ => bc

def ProductionNode.depth : ProductionNode → Nat
  | .mk _ _ _ _ _ d _ => d

def ProductionNode.children : ProductionNode → List ProductionNode
  | .mk _ _ _ _ _ _ cs => cs

mutual

/-- `_build_chain_recursive` (calculator.py lines 381-450) under fuel
semantics (`none` = not finished within the fuel). Base resources and
path-repeats terminate the node; otherwise the best recipe (selected with
the default `prefer_efficient=True`) is expanded into one child per
non-placeholder input, each child seeing the path extended by the current
resource; a resolved node whose recursion produced no children is demoted
to a "NO RECIPE" terminal. -/
def buildChain (C : List Recipe) (fuel : Nat) (resource : String) (qpm : ℚ)
    (visited : List String) (depth : Nat) (maxPhase : Nat) (allowAlternate : Bool)
    (allowedAlternates : Option (List String)) : Option ProductionNode :=
  match fuel with
  | 0 => none
  | fuel + 1 =>
    if BASE_RESOURCES.contains resource then
      some (.mk resource qpm none "Miner/Extractor" 0 depth [])
    else if visited.contains resource then
      some (.mk resource qpm none "CIRCULAR" 0 depth [])
    else
      match getBestRecipe C fuel resource maxPhase true allowAlternate allowedAlternates with
      | none => none
      | some none => some (.mk resource qpm none "NO RECIPE" 0 depth [])
      | some (some recipe) =>
        match buildChildren C fuel (resource :: visited) (depth + 1) maxPhase allowAlternate
            allowedAlternates (lookupD recipe.outputs resource 1) qpm recipe.inputs with
        | none => none
        | some children =>
          if children.isEmpty && !(BASE_RESOURCES.contains resource) then
            some (.mk resource qpm none "NO RECIPE" 0 depth [])
          else
            some (.mk resource qpm (some recipe) recipe.building_type
              (qpm / ((lookupD recipe.outputs resource 1 : ℚ) * (60 / recipe.production_time)))
              depth children)
termination_by (fuel, 0, 0)

/-- Child loop of `_build_chain_recursive` (lines 421-429): one child per
non-placeholder input, at rate `(input_amount / output_amount) * qpm`. -/
def buildChildren (C : List Recipe) (fuel : Nat) (visited : List String) (depth : Nat)
    (maxPhase : Nat) (allowAlternate : Bool) (allowedAlternates : Option (List String))
    (outA : Nat) (qpm : ℚ) : List (String × Nat) → Option (List ProductionNode)
  | [] => some []
  | (ires, iamt) :: rest =>
    if ires = "NONE" then
      buildChildren C fuel visited depth maxPhase allowAlternate allowedAlternates outA qpm rest
    else
      match buildChain C fuel ires ((iamt : ℚ) / (outA : ℚ) * qpm) visited depth maxPhase
          allowAlternate allowedAlternates with
      | none => none
      | some child =>
        match buildChildren C fuel visited depth maxPhase allowAlternate allowedAlternates
            outA qpm rest with
        | none => none
        | some l => some (child :: l)
termination_by l => (fuel, 1, l.length)

end

/-- `calculate_production_chain` (calculator.py lines 374-379): build the
chain from an empty visited path at depth 0. -/
def calculateProductionChain (C : List Recipe) (fuel : Nat) (target : String) (rate : ℚ)
    (maxPhase : Nat) (allowAlternate : Bool)
    (allowedAlternates : Option (List String)) : Option ProductionNode :=
  buildChain C fuel target rate [] 0 maxPhase allowAlternate allowedAlternates

mutual

/-- Pre-order list of all nodes of a tree (the node itself first). -/
def flattenNode : ProductionNode → List ProductionNode
  | .mk r q rc bt bc d cs => .mk r q rc bt bc d cs :: flattenForest cs

def flattenForest : List ProductionNode → List ProductionNode
  | [] => []
  | c :: cs => flattenNode c ++ flattenForest cs

end

/-- `get_display_name`: lookup in the display-name map, falling back to
Python's `resource.replace('_', ' ').title()` (ASCII title-casing). -/
def pyTitle (s : String) : String :=
  ⟨(s.data.foldl
      (fun acc c =>
        ((if acc.2 then c.toLower else c.toUpper) :: acc.1, c.isAlpha))
      ([], false)).1.reverse⟩

def getDisplayName (m : List (String × String)) (resource : String) : String :=
  match m.find? (fun p => p.1 == resource) with
  | some p => p.2
  | none => pyTitle ⟨resource.data.map (fun c => if c = '_' then ' ' else c)⟩

/-- `defaultdict(float)`-style accumulation: add `v` at key `k`,
inserting the key at the end on first use. -/
def addTo (m : List (String × ℚ)) (k : String) (v : ℚ) : List (String × ℚ) :=
  match m with
  | [] => [(k, v)]
  | (k', v') :: rest => if k' = k then (k', v' + v) :: rest else (k', v') :: addTo rest k v

/-- Lookup in an accumulated mapping, with 0 for an absent key. -/
def lookupQ (m : List (String × ℚ)) (k : String) : ℚ :=
  match m.find? (fun p => p.1 == k) with
  | some p => p.2
  | none => 0

/-- Accumulator state of `get_total_requirements`: the two defaultdicts
and the set of alternate display names (insertion-ordered, duplicate-free). -/
structure Totals where
  raw : List (String × ℚ)
  buildings : List (String × ℚ)
  alts : List String
deriving DecidableEq, Repr

mutual

/-- `traverse` of `get_total_requirements` (calculator.py lines 465-475):
a recipe-less base-resource node adds its rate under its display name; a
resolved node adds its building count under its building type and, when
its recipe is an alternate, records the recipe's display name; then the
children are traversed. -/
def traverseNode (m : List (String × String)) : ProductionNode → Totals → Totals
  | .mk res q rc bt bc _ cs, s =>
    let s1 :=
      match rc with
      | none =>
        if BASE_RESOURCES.contains res then
          { s with raw := addTo s.raw (getDisplayName m res) q }
        else s
      | some r =>
        { s with buildings := addTo s.buildings bt bc,
                 alts := if r.alternate_recipe then
                           (if r.display_name ∈ s.alts then s.alts else s.alts ++ [r.display_name])
                         else s.alts }
    traverseForest m cs s1

def traverseForest (m : List (String × String)) : List ProductionNode → Totals → Totals
  | [], s => s
  | c :: cs, s => traverseForest m cs (traverseNode m c s)

end

/-- `get_total_requirements` (calculator.py lines 459-482): traverse from
empty accumulators, then sort the alternate display names. -/
def getTotalRequirements (m : List (String × String)) (t : ProductionNode) : Totals :=
  let s := traverseNode m t ⟨[], [], []⟩
  ⟨s.raw, s.buildings, List.insertionSort (· ≤ ·) s.alts⟩

/-! ### Catalog validity and per-node specification predicates -/

/-- The data invariants the engine's documentation assumes of a loaded
catalog: positive production times and positive input/output quantities. -/
def validCatalog (C : List Recipe) : Prop :=
  ∀ r ∈ C, 0 < r.production_time ∧ (∀ p ∈ r.inputs, 0 < p.2) ∧ (∀ p ∈ r.outputs, 0 < p.2)

/-- Per-node property for the building-count claim: the count is
nonnegative, a resolved node carries exactly the
`rate / (outputs[resource] * 60/production_time)` count, and a zero count
occurs only on unresolved nodes. -/
def c2NodeOK (n : ProductionNode) : Prop :=
  0 ≤ n.building_count ∧
  (∀ r, n.recipe = some r →
    n.building_count =
      n.quantity_per_minute / ((lookupD r.outputs n.resource 1 : ℚ) * (60 / r.production_time))) ∧
  (n.building_count = 0 → n.recipe = none)

/-- Spec-side total: summed rate of the terminal base-resource nodes
carrying a given display name (spec 4.5, raw_resources). -/
def rawSumSpec (m : List (String × String)) (l : List ProductionNode) (name : String) : ℚ :=
  ((l.filter (fun n => n.children.isEmpty && BASE_RESOURCES.contains n.resource
      && (getDisplayName m n.resource == name))).map
    (fun n => n.quantity_per_minute)).sum

/-- Spec-side total: summed building count of the resolved nodes carrying
a given building type (spec 4.5, buildings). -/
def buildSumSpec (l : List ProductionNode) (bt : String) : ℚ :=
  ((l.filter (fun n => n.recipe.isSome && (n.building_type == bt))).map
    (fun n => n.building_count)).sum

/-- Code-side raw total: summed rate of recipe-less base-resource nodes
with a given display name, as accumulated by `traverse`. -/
def codeRawSum (m : List (String × String)) (l : List ProductionNode) (name : String) : ℚ :=
  ((l.filter (fun n => n.recipe.isNone && BASE_RESOURCES.contains n.resource
      && (getDisplayName m n.resource == name))).map
    (fun n => n.quantity_per_minute)).sum

/-- Display names of the alternate recipes used at the nodes of a list. -/
def altNamesOf (l : List ProductionNode) : List String :=
  l.filterMap (fun n =>
    match n.recipe with
    | some r => if r.alternate_recipe then some r.display_name else none
    | none => none)

/-! ### Concrete recipes and catalogs used to instantiate the claims -/

/-- Recipe constructor with the fields not used by the resolution engine
defaulted, mirroring the dataclass defaults. -/
def mkR (id : String) (ins outs : List (String × Nat)) (pt : ℚ) (bt : String)
    (ph : Nat) (alt : Bool) : Recipe :=
  ⟨id, id, ins, outs, pt, bt, "", 5, 0, ph, alt⟩

/-- A recipe producing A_ITEM from B_ITEM. -/
def recA : Recipe := mkR "rec_a" [("B_ITEM", 1)] [("A_ITEM", 1)] 5 "Assembler" 1 false

/-- A recipe producing B_ITEM from A_ITEM. -/
def recB : Recipe := mkR "rec_b" [("A_ITEM", 1)] [("B_ITEM", 1)] 5 "Assembler" 1 false

/-- Mutually recursive catalog: A_ITEM needs B_ITEM and B_ITEM needs
A_ITEM, both non-base. -/
def CcycAB : List Recipe := [recA, recB]

/-- The iron-ingot recipe of the spec's smoke-test scenario:
1 ORE -> 1 IRON_INGOT in 2 seconds. -/
def ironIngot : Recipe := mkR "iron_ingot" [("ORE", 1)] [("IRON_INGOT", 1)] 2 "Smelter" 1 false

def Ciron : List Recipe := [ironIngot]

/-- The tree `calculate_production_chain("IRON_INGOT", 0)` produces on
`Ciron`: the root is resolved yet carries building_count 0. -/
def ironTreeZero : ProductionNode :=
  .mk "IRON_INGOT" 0 (some ironIngot) "Smelter" 0 0 [.mk "ORE" 0 none "Miner/Extractor" 0 1 []]

/-- The tree `calculate_production_chain("IRON_INGOT", 30)` produces on
`Ciron`. -/
def ironTree30 : ProductionNode :=
  .mk "IRON_INGOT" 30 (some ironIngot) "Smelter" 1 0 [.mk "ORE" 30 none "Miner/Extractor" 0 1 []]

/-- PLATE candidate whose only input, UNOBTANIUM, has no recipe and is
not a base resource. -/
def plateCheap : Recipe := mkR "plate_cheap" [("UNOBTANIUM", 1)] [("PLATE", 1)] 5 "Assembler" 1 false

/-- PLATE candidate using only the base resource ORE, at a much higher
per-unit raw cost (9). -/
def plateOre : Recipe := mkR "plate_ore" [("ORE", 9)] [("PLATE", 1)] 5 "Smelter" 1 false

/-- Catalog of the producibility scenario: the unproducible candidate
comes first in catalog order. -/
def Cplate : List Recipe := [plateCheap, plateOre]

/-- An alternate recipe for PITEM. -/
def altP : Recipe := mkR "alt_p" [("ORE", 1)] [("PITEM", 1)] 5 "Assembler" 1 true

/-- The default (non-alternate) recipe for PITEM. -/
def mainP : Recipe := mkR "main_p" [("ORE", 2)] [("PITEM", 1)] 5 "Assembler" 1 false

def C4cat : List Recipe := [altP, mainP]

/-- QITEM candidate with raw cost 4 per unit, first in catalog order. -/
def qA : Recipe := mkR "q_a" [("ORE", 4)] [("QITEM", 1)] 5 "Assembler" 1 false

/-- QITEM candidate with raw cost 2 per unit, second in catalog order. -/
def qB : Recipe := mkR "q_b" [("ORE", 2)] [("QITEM", 1)] 5 "Assembler" 1 false

def Ceff : List Recipe := [qA, qB]

/-- A recipe with an empty inputs mapping, resolvable but expanded to
zero children. -/
def freebie : Recipe := mkR "freebie" [] [("GADGET", 1)] 5 "Assembler" 1 false

def C7cat : List Recipe := [freebie]

/-- A recipe producing ORE: present to show base classification wins. -/
def oreMaker : Recipe := mkR "ore_maker" [("WATER", 1)] [("ORE", 1)] 5 "Miner" 1 false

def C8cat : List Recipe := [oreMaker]

/-- GADGET2's only recipe, consuming WIDGET. -/
def gadgetR : Recipe := mkR "gadget" [("WIDGET", 1)] [("GADGET2", 1)] 5 "Assembler" 1 false

/-- The only recipe producing WIDGET, an alternate one. -/
def altWidget : Recipe := mkR "alt_widget" [("ORE", 1)] [("WIDGET", 1)] 5 "Assembler" 1 true

def C9cat : List Recipe := [gadgetR, altWidget]

/-- EXP: genuinely producible from 10000 ORE, raw cost 10000. -/
def expR : Recipe := mkR "exp" [("ORE", 10000)] [("EXP", 1)] 5 "Assembler" 1 false

/-- THING's only recipe, consuming the expensive-but-producible EXP. -/
def thingR : Recipe := mkR "thing" [("EXP", 1)] [("THING", 1)] 5 "Assembler" 1 false

/-- The only recipe producing AITEM, an alternate one. -/
def altA : Recipe := mkR "alt_a" [("ORE", 1)] [("AITEM", 1)] 5 "Assembler" 1 true

/-- Bulk recipe: 1 AITEM -> 200 RITEM, diluting AITEM's cost by 1/200. -/
def rBulk : Recipe := mkR "r_bulk" [("AITEM", 1)] [("RITEM", 200)] 5 "Assembler" 1 false

/-- THING2 candidate consuming RITEM. -/
def t2main : Recipe := mkR "t2_main" [("RITEM", 1)] [("THING2", 1)] 5 "Assembler" 1 false

/-- THING2 fallback candidate with an enormous base-resource cost. -/
def t2backup : Recipe := mkR "t2_backup" [("ORE", 99999)] [("THING2", 1)] 5 "Assembler" 1 false

def C10cat : List Recipe := [expR, thingR, altA, rBulk, t2main, t2backup]

/-- Display map for the aggregation witness. -/
def c6map : List (String × String) := [("ORE", "Iron Ore")]

/-- Concrete alternate-using tree for the aggregation witness. -/
def c6tree : ProductionNode :=
  .mk "PITEM" 30 (some altP) "Assembler" 1 0 [.mk "ORE" 30 none "Miner/Extractor" 0 1 []]

/-! ### Structural lemmas about trees and the selection helpers -/

theorem ProductionNode.strong_ind (motive : ProductionNode → Prop)
    (h : ∀ r q rc bt bc d cs, (∀ c ∈ cs, motive c) → motive (.mk r q rc bt bc d cs)) :
    ∀ t, motive t := by
  have key : ∀ n t, sizeOf t ≤ n → motive t := by
    intro n
    induction n with
    | zero =>
      intro t ht
      cases t with
      | mk r q rc bt bc d cs =>
        simp only [ProductionNode.mk.sizeOf_spec] at ht
        omega
    | succ n ih =>
      intro t ht
      cases t with
      | mk r q rc bt bc d cs =>
        apply h
        intro c hc
        apply ih
        have h1 : sizeOf c < sizeOf cs := List.sizeOf_lt_of_mem hc
        simp only [ProductionNode.mk.sizeOf_spec] at ht
        omega
  intro t
  exact key (sizeOf t) t le_rfl

theorem mem_flattenForest {n : ProductionNode} :
    ∀ {l : List ProductionNode}, n ∈ flattenForest l ↔ ∃ c ∈ l, n ∈ flattenNode c := by
  intro l
  induction l with
  | nil => simp [flattenForest]
  | cons c cs ih => simp [flattenForest, List.mem_append, ih]

theorem mem_flattenNode {n : ProductionNode} {r q rc bt bc d cs} :
    n ∈ flattenNode (.mk r q rc bt bc d cs) ↔
      n = .mk r q rc bt bc d cs ∨ ∃ c ∈ cs, n ∈ flattenNode c := by
  rw [flattenNode]
  simp [mem_flattenForest]

theorem self_mem_flattenNode (t : ProductionNode) : t ∈ flattenNode t := by
  cases t with
  | mk r q rc bt bc d cs => rw [flattenNode]; exact List.mem_cons_self _ _

theorem selectBest_mem : ∀ (pairs : List (Recipe × ℚ)) (best : Recipe) (bc : Option ℚ),
    selectBest best bc pairs ∈ best :: pairs.map Prod.fst := by
  intro pairs
  induction pairs with
  | nil => intro best bc; simp [selectBest]
  | cons p rest ih =>
    intro best bc
    obtain ⟨r, c⟩ := p
    match bc with
    | none =>
      rw [selectBest]
      have := ih r (some c)
      simp only [List.map_cons]
      rcases List.mem_cons.mp this with h | h
      · rw [h]; exact List.mem_cons_of_mem _ (List.mem_cons_self _ _)
      · exact List.mem_cons_of_mem _ (List.mem_cons_of_mem _ h)
    | some bc0 =>
      rw [selectBest]
      by_cases hlt : c < bc0
      · simp only [if_pos hlt, List.map_cons]
        have := ih r (some c)
        rcases List.mem_cons.mp this with h | h
        · rw [h]; exact List.mem_cons_of_mem _ (List.mem_cons_self _ _)
        · exact List.mem_cons_of_mem _ (List.mem_cons_of_mem _ h)
      · simp only [if_neg hlt, List.map_cons]
        have := ih best (some bc0)
        rcases List.mem_cons.mp this with h | h
        · rw [h]; exact List.mem_cons_self _ _
        · exact List.mem_cons_of_mem _ (List.mem_cons_of_mem _ h)

theorem selectBest_some_spec : ∀ (pairs : List (Recipe × ℚ)) (best : Recipe) (bc : ℚ),
    (selectBest best (some bc) pairs = best ∧ ∀ p ∈ pairs, bc ≤ p.2)
    ∨ (∃ pre c post, pairs = pre ++ (selectBest best (some bc) pairs, c) :: post
        ∧ c < bc ∧ (∀ p ∈ pre, c < p.2) ∧ (∀ p ∈ post, c ≤ p.2)) := by
  intro pairs
  induction pairs with
  | nil => intro best bc; exact Or.inl ⟨by rw [selectBest], by simp⟩
  | cons p rest ih =>
    intro best bc
    obtain ⟨r, c0⟩ := p
    by_cases hlt : c0 < bc
    · rw [selectBest]
      simp only [if_pos hlt]
      rcases ih r c0 with ⟨heq, hall⟩ | ⟨pre, c, post, hsplit, hc, hpre, hpost⟩
      · refine Or.inr ⟨[], c0, rest, ?_, hlt, by simp, ?_⟩
        · simp [heq]
        · intro p hp; exact hall p hp
      · refine Or.inr ⟨(r, c0) :: pre, c, post, congrArg _ hsplit, lt_trans hc hlt, ?_, hpost⟩
        intro p hp
        rcases List.mem_cons.mp hp with h | h
        · rw [h]; exact hc
        · exact hpre p h
    · rw [selectBest]
      simp only [if_neg hlt]
      push_neg at hlt
      rcases ih best bc with ⟨heq, hall⟩ | ⟨pre, c, post, hsplit, hc, hpre, hpost⟩
      · refine Or.inl ⟨heq, ?_⟩
        intro p hp
        rcases List.mem_cons.mp hp with h | h
        · rw [h]; exact hlt
        · exact hall p h
      · refine Or.inr ⟨(r, c0) :: pre, c, post, congrArg _ hsplit, hc, ?_, hpost⟩
        intro p hp
        rcases List.mem_cons.mp hp with h | h
        · rw [h]; exact lt_of_lt_of_le hc hlt
        · exact hpre p h

theorem selectBest_none_spec (v0 : Recipe) (r1 : Recipe) (c1 : ℚ) (rest : List (Recipe × ℚ)) :
    ∃ pre c post, (r1, c1) :: rest = pre ++ (selectBest v0 none ((r1, c1) :: rest), c) :: post
      ∧ (∀ p ∈ pre, c < p.2) ∧ (∀ p ∈ post, c ≤ p.2) := by
  rw [selectBest]
  rcases selectBest_some_spec rest r1 c1 with ⟨heq, hall⟩ | ⟨pre, c, post, hsplit, hc, hpre, hpost⟩
  · exact ⟨[], c1, rest, by simp [heq], by simp, hall⟩
  · refine ⟨(r1, c1) :: pre, c, post, congrArg _ hsplit, ?_, hpost⟩
    intro p hp
    rcases List.mem_cons.mp hp with h | h
    · rw [h]; exact hc
    · exact hpre p h

theorem effCosts_fst {C fuel res mp aa aal} :
    ∀ {l : List Recipe} {pairs}, effCosts C fuel res mp aa aal l = some pairs →
      pairs.map Prod.fst = l := by
  intro l
  induction l with
  | nil => intro pairs h; rw [effCosts] at h; cases h; rfl
  | cons r rest ih =>
    intro pairs h
    rw [effCosts] at h
    split at h
    · exact absurd h (by simp)
    · split at h
      · exact absurd h (by simp)
      · cases h
        simp [ih (by assumption)]

theorem filterValid_sublist {C fuel mp aa} :
    ∀ {l l' : List Recipe}, filterValid C fuel mp aa l = some l' → l'.Sublist l := by
  intro l
  induction l with
  | nil => intro l' h; rw [filterValid] at h; cases h; exact List.Sublist.refl _
  | cons r rest ih =>
    intro l' h
    rw [filterValid] at h
    split at h
    · exact absurd h (by simp)
    · split at h
      · exact absurd h (by simp)
      · cases h
        exact List.Sublist.cons₂ r (ih (by assumption))
    · exact List.Sublist.cons r (ih h)

theorem policyCandidates_subset {C res mp aa aal} :
    ∀ {r : Recipe}, r ∈ policyCandidates C res mp aa aal → r ∈ C := by
  intro r h
  have hp : ∀ {x : Recipe}, x ∈ phaseCandidates C res mp → x ∈ C := by
    intro x hx
    have := List.mem_of_mem_filter hx
    exact List.mem_of_mem_filter this
  rw [policyCandidates.eq_def] at h
  split at h
  · exact hp (List.mem_of_mem_filter h)
  · split at h
    · exact hp (List.mem_of_mem_filter h)
    · exact hp h

theorem getBestRecipe_mem {C fuel res mp pe aa aal r} :
    getBestRecipe C fuel res mp pe aa aal = some (some r) → r ∈ C := by
  intro h
  match fuel with
  | 0 => rw [getBestRecipe] at h; cases h
  | fuel + 1 =>
    rw [getBestRecipe] at h
    split at h
    · cases h
    · split at h
      · cases h
      · cases h
      · rename_i v0 vs heq
        have hsub : (v0 :: vs).Sublist (policyCandidates C res mp aa aal) :=
          filterValid_sublist heq
        have hmem : ∀ {x : Recipe}, x ∈ v0 :: vs → x ∈ C := by
          intro x hx
          exact policyCandidates_subset (hsub.subset hx)
        split at h
        · split at h
          · cases h
          · rename_i pairs hpairs
            cases h
            have h1 := selectBest_mem pairs v0 none
            rw [effCosts_fst hpairs] at h1
            rcases List.mem_cons.mp h1 with h2 | h2
            · rw [h2]; exact hmem (List.mem_cons_self _ _)
            · exact hmem h2
        · cases h
          exact hmem (List.mem_cons_self _ _)

/-! ### Divergence of the selection recursion on the cyclic catalog -/

theorem cycA_candidates (aal : Option (List String)) :
    policyCandidates CcycAB "A_ITEM" 1 true aal = [recA] := by
  cases aal <;>
    simp +decide [policyCandidates, phaseCandidates, recipesByOutput, CcycAB, recA, recB, mkR]

theorem cycB_candidates (aal : Option (List String)) :
    policyCandidates CcycAB "B_ITEM" 1 true aal = [recB] := by
  cases aal <;>
    simp +decide [policyCandidates, phaseCandidates, recipesByOutput, CcycAB, recA, recB, mkR]

/-- On the mutually recursive catalog, `get_best_recipe` and
`_get_raw_cost_recursive` never return, at any fuel: the reachability
filter restarts the raw-cost estimate of each input from a fresh empty
visited set, so the A/B alternation recurses forever. -/
theorem cycAB_diverges : ∀ fuel,
    (∀ pe aal, getBestRecipe CcycAB fuel "A_ITEM" 1 pe true aal = none) ∧
    (∀ pe aal, getBestRecipe CcycAB fuel "B_ITEM" 1 pe true aal = none) ∧
    (∀ aal, rawCostRecursive CcycAB fuel "A_ITEM" 1 true [] aal = none) ∧
    (∀ aal, rawCostRecursive CcycAB fuel "B_ITEM" 1 true [] aal = none) := by
  intro fuel
  induction fuel using Nat.strong_induction_on with
  | _ fuel ih =>
    match fuel with
    | 0 =>
      refine ⟨fun pe aal => ?_, fun pe aal => ?_, fun aal => ?_, fun aal => ?_⟩
      · rw [getBestRecipe]
      · rw [getBestRecipe]
      · rw [rawCostRecursive]
      · rw [rawCostRecursive]
    | m + 1 =>
      have ihm := ih m (Nat.lt_succ_self m)
      have hgA : ∀ pe aal, getBestRecipe CcycAB (m + 1) "A_ITEM" 1 pe true aal = none := by
        intro pe aal
        rw [getBestRecipe]
        simp +decide [cycA_candidates, filterValid, allInputsProducible, recA, mkR,
          ihm.2.2.2 none]
      have hgB : ∀ pe aal, getBestRecipe CcycAB (m + 1) "B_ITEM" 1 pe true aal = none := by
        intro pe aal
        rw [getBestRecipe]
        simp +decide [cycB_candidates, filterValid, allInputsProducible, recB, mkR,
          ihm.2.2.1 none]
      have hrA : ∀ aal, rawCostRecursive CcycAB (m + 1) "A_ITEM" 1 true [] aal = none := by
        intro aal
        rw [rawCostRecursive]
        simp +decide [ihm.1 false aal]
      have hrB : ∀ aal, rawCostRecursive CcycAB (m + 1) "B_ITEM" 1 true [] aal = none := by
        intro aal
        rw [rawCostRecursive]
        simp +decide [ihm.2.1 false aal]
      exact ⟨hgA, hgB, hrA, hrB⟩

/-! ### Aggregation lemmas -/

theorem lookupQ_addTo (l : List (String × ℚ)) (k : String) (v : ℚ) (k' : String) :
    lookupQ (addTo l k v) k' = lookupQ l k' + if k = k' then v else 0 := by
  induction l with
  | nil =>
    by_cases h : k = k'
    · subst h
      simp [addTo, lookupQ, List.find?]
    · have hb : (k == k') = false := beq_eq_false_iff_ne.mpr h
      simp [addTo, lookupQ, List.find?, hb, h]
  | cons p rest ih =>
    obtain ⟨a, b⟩ := p
    by_cases hak : a = k
    · subst hak
      by_cases hk' : a = k'
      · subst hk'
        simp [addTo, lookupQ, List.find?]
      · have hb : (a == k') = false := beq_eq_false_iff_ne.mpr hk'
        simp [addTo, lookupQ, List.find?, hb, hk']
    · rw [addTo, if_neg hak]
      by_cases hk' : a = k'
      · subst hk'
        have hkk' : ¬(k = a) := fun hh => hak hh.symm
        simp [lookupQ, List.find?, hkk']
      · have hb : (a == k') = false := beq_eq_false_iff_ne.mpr hk'
        simp only [lookupQ, List.find?, hb]
        exact ih

theorem codeRawSum_cons (m : List (String × String)) (n : ProductionNode)
    (l : List ProductionNode) (name : String) :
    codeRawSum m (n :: l) name =
      (if (n.recipe.isNone && BASE_RESOURCES.contains n.resource
          && (getDisplayName m n.resource == name)) then n.quantity_per_minute else 0)
        + codeRawSum m l name := by
  rw [codeRawSum, codeRawSum, List.filter_cons]
  cases h : (n.recipe.isNone && BASE_RESOURCES.contains n.resource
      && (getDisplayName m n.resource == name)) with
  | true => simp [h]
  | false => simp [h]

theorem codeRawSum_append (m : List (String × String)) (l1 l2 : List ProductionNode)
    (name : String) :
    codeRawSum m (l1 ++ l2) name = codeRawSum m l1 name + codeRawSum m l2 name := by
  simp [codeRawSum, List.filter_append]

theorem buildSumSpec_cons (n : ProductionNode) (l : List ProductionNode) (bt : String) :
    buildSumSpec (n :: l) bt =
      (if (n.recipe.isSome && (n.building_type == bt)) then n.building_count else 0)
        + buildSumSpec l bt := by
  rw [buildSumSpec, buildSumSpec, List.filter_cons]
  cases h : (n.recipe.isSome && (n.building_type == bt)) with
  | true => simp [h]
  | false => simp [h]

theorem buildSumSpec_append (l1 l2 : List ProductionNode) (bt : String) :
    buildSumSpec (l1 ++ l2) bt = buildSumSpec l1 bt + buildSumSpec l2 bt := by
  simp [buildSumSpec, List.filter_append]

theorem altNamesOf_append (l1 l2 : List ProductionNode) :
    altNamesOf (l1 ++ l2) = altNamesOf l1 ++ altNamesOf l2 := by
  simp [altNamesOf]

theorem traverseNode_mk (m : List (String × String)) (res : String) (q : ℚ)
    (rc : Option Recipe) (bt : String) (bc : ℚ) (d : Nat) (cs : List ProductionNode)
    (s : Totals) :
    traverseNode m (.mk res q rc bt bc d cs) s =
      traverseForest m cs
        (match rc with
          | none =>
            if BASE_RESOURCES.contains res
              then { s with raw := addTo s.raw (getDisplayName m res) q } else s
          | some r =>
            { s with buildings := addTo s.buildings bt bc,
                     alts := if r.alternate_recipe then
                               (if r.display_name ∈ s.alts then s.alts
                                else s.alts ++ [r.display_name])
                             else s.alts }) := by
  rw [traverseNode.eq_def]

theorem traverseForest_nil (m : List (String × String)) (s : Totals) :
    traverseForest m [] s = s := by
  rw [traverseForest.eq_def]

theorem traverseForest_cons (m : List (String × String)) (c : ProductionNode)
    (cs : List ProductionNode) (s : Totals) :
    traverseForest m (c :: cs) s = traverseForest m cs (traverseNode m c s) := by
  rw [traverseForest.eq_def]

theorem traverse_raw (m : List (String × String)) (name : String) :
    ∀ t : ProductionNode, ∀ s : Totals,
      lookupQ (traverseNode m t s).raw name
        = lookupQ s.raw name + codeRawSum m (flattenNode t) name := by
  apply ProductionNode.strong_ind
    (motive := fun t => ∀ s : Totals,
      lookupQ (traverseNode m t s).raw name
        = lookupQ s.raw name + codeRawSum m (flattenNode t) name)
  intro res q rc bt bc d cs ihcs s
  have hforest : ∀ (l : List ProductionNode),
      (∀ c ∈ l, ∀ s : Totals, lookupQ (traverseNode m c s).raw name
        = lookupQ s.raw name + codeRawSum m (flattenNode c) name) →
      ∀ s : Totals, lookupQ (traverseForest m l s).raw name
        = lookupQ s.raw name + codeRawSum m (flattenForest l) name := by
    intro l
    induction l with
    | nil =>
      intro _ s
      rw [traverseForest_nil, flattenForest]
      simp [codeRawSum]
    | cons c cs2 ihl =>
      intro hmem s
      rw [traverseForest_cons, flattenForest, codeRawSum_append]
      rw [ihl (fun c' hc' => hmem c' (List.mem_cons_of_mem _ hc'))]
      rw [hmem c (List.mem_cons_self _ _)]
      ring
  rw [traverseNode_mk, flattenNode, codeRawSum_cons, hforest cs ihcs]
  simp only [ProductionNode.recipe, ProductionNode.resource, ProductionNode.quantity_per_minute]
  cases rc with
  | none =>
    cases hb : BASE_RESOURCES.contains res with
    | true =>
      simp only [hb, if_true, Option.isNone_none, Bool.true_and, lookupQ_addTo]
      cases hdn : (getDisplayName m res == name) with
      | true =>
        have hdn' : getDisplayName m res = name := by
          exact beq_iff_eq.mp hdn
        simp only [hdn', if_pos rfl, Bool.and_true]
        ring
      | false =>
        have hdn' : ¬(getDisplayName m res = name) := by
          exact beq_eq_false_iff_ne.mp hdn
        simp only [hdn', if_false, Bool.and_false, if_neg hdn']
        simp
    | false =>
      simp only [hb, Bool.false_eq_true, if_false, Bool.false_and, Bool.and_false]
      simp
  | some r =>
    simp only [Option.isNone_some, Bool.false_and]
    simp

theorem traverse_buildings (m : List (String × String)) (bt' : String) :
    ∀ t : ProductionNode, ∀ s : Totals,
      lookupQ (traverseNode m t s).buildings bt'
        = lookupQ s.buildings bt' + buildSumSpec (flattenNode t) bt' := by
  apply ProductionNode.strong_ind
    (motive := fun t => ∀ s : Totals,
      lookupQ (traverseNode m t s).buildings bt'
        = lookupQ s.buildings bt' + buildSumSpec (flattenNode t) bt')
  intro res q rc bt bc d cs ihcs s
  have hforest : ∀ (l : List ProductionNode),
      (∀ c ∈ l, ∀ s : Totals, lookupQ (traverseNode m c s).buildings bt'
        = lookupQ s.buildings bt' + buildSumSpec (flattenNode c) bt') →
      ∀ s : Totals, lookupQ (traverseForest m l s).buildings bt'
        = lookupQ s.buildings bt' + buildSumSpec (flattenForest l) bt' := by
    intro l
    induction l with
    | nil =>
      intro _ s
      rw [traverseForest_nil, flattenForest]
      simp [buildSumSpec]
    | cons c cs2 ihl =>
      intro hmem s
      rw [traverseForest_cons, flattenForest, buildSumSpec_append]
      rw [ihl (fun c' hc' => hmem c' (List.mem_cons_of_mem _ hc'))]
      rw [hmem c (List.mem_cons_self _ _)]
      ring
  rw [traverseNode_mk, flattenNode, buildSumSpec_cons, hforest cs ihcs]
  simp only [ProductionNode.recipe, ProductionNode.building_type, ProductionNode.building_count]
  cases rc with
  | none =>
    have hbuild :
        (match (none : Option Recipe) with
          | none =>
            if BASE_RESOURCES.contains res
              then { s with raw := addTo s.raw (getDisplayName m res) q } else s
          | some r =>
            { s with buildings := addTo s.buildings bt bc,
                     alts := if r.alternate_recipe then
                               (if r.display_name ∈ s.alts then s.alts
                                else s.alts ++ [r.display_name])
                             else s.alts }).buildings = s.buildings := by
      cases hb : BASE_RESOURCES.contains res <;> simp [hb]
    rw [hbuild]
    simp only [Option.isSome_none, Bool.false_and]
    simp
  | some r =>
    simp only [Option.isSome_some, Bool.true_and, lookupQ_addTo]
    cases hbt : (bt == bt') with
    | true =>
      have hbt' : bt = bt' := beq_iff_eq.mp hbt
      simp only [hbt', if_pos rfl]
      ring
    | false =>
      have hbt' : ¬(bt = bt') := beq_eq_false_iff_ne.mp hbt
      simp only [if_neg hbt', Bool.false_eq_true, if_false]
      simp

theorem traverse_alts_mem (m : List (String × String)) (x : String) :
    ∀ t : ProductionNode, ∀ s : Totals,
      (x ∈ (traverseNode m t s).alts ↔ x ∈ s.alts ∨ x ∈ altNamesOf (flattenNode t)) := by
  apply ProductionNode.strong_ind
    (motive := fun t => ∀ s : Totals,
      x ∈ (traverseNode m t s).alts ↔ x ∈ s.alts ∨ x ∈ altNamesOf (flattenNode t))
  intro res q rc bt bc d cs ihcs s
  have hforest : ∀ (l : List ProductionNode),
      (∀ c ∈ l, ∀ s : Totals,
        (x ∈ (traverseNode m c s).alts ↔ x ∈ s.alts ∨ x ∈ altNamesOf (flattenNode c))) →
      ∀ s : Totals,
        (x ∈ (traverseForest m l s).alts ↔ x ∈ s.alts ∨ x ∈ altNamesOf (flattenForest l)) := by
    intro l
    induction l with
    | nil =>
      intro _ s
      rw [traverseForest_nil, flattenForest]
      simp [altNamesOf]
    | cons c cs2 ihl =>
      intro hmem s
      rw [traverseForest_cons, flattenForest, altNamesOf_append]
      rw [ihl (fun c' hc' => hmem c' (List.mem_cons_of_mem _ hc'))]
      rw [hmem c (List.mem_cons_self _ _)]
      simp [or_assoc]
  rw [traverseNode_mk, flattenNode, hforest cs ihcs]
  have haltcons : altNamesOf (ProductionNode.mk res q rc bt bc d cs :: flattenForest cs)
      = (match rc with
          | some r => if r.alternate_recipe then r.display_name :: altNamesOf (flattenForest cs)
              else altNamesOf (flattenForest cs)
          | none => altNamesOf (flattenForest cs)) := by
    cases rc with
    | none => simp [altNamesOf, ProductionNode.recipe]
    | some r =>
      cases halt : r.alternate_recipe <;> simp [altNamesOf, ProductionNode.recipe, halt]
  rw [haltcons]
  cases rc with
  | none =>
    have halts :
        (match (none : Option Recipe) with
          | none =>
            if BASE_RESOURCES.contains res
              then { s with raw := addTo s.raw (getDisplayName m res) q } else s
          | some r =>
            { s with buildings := addTo s.buildings bt bc,
                     alts := if r.alternate_recipe then
                               (if r.display_name ∈ s.alts then s.alts
                                else s.alts ++ [r.display_name])
                             else s.alts }).alts = s.alts := by
      cases hb : BASE_RESOURCES.contains res <;> simp [hb]
    rw [halts]
  | some r =>
    cases halt : r.alternate_recipe with
    | true =>
      simp only [halt, if_true]
      by_cases hmem : r.display_name ∈ s.alts
      · simp only [hmem, if_pos]
        simp only [List.mem_cons]
        constructor
        · intro h
          rcases h with h | h
          · exact Or.inl h
          · exact Or.inr (Or.inr h)
        · intro h
          rcases h with h | h | h
          · exact Or.inl h
          · exact Or.inl (h ▸ hmem)
          · exact Or.inr h
      · simp only [hmem, if_neg, not_false_iff]
        simp only [List.mem_append, List.mem_cons, List.not_mem_nil, or_false]
        tauto
    | false =>
      simp only [halt, Bool.false_eq_true, if_false]

theorem traverse_alts_nodup (m : List (String × String)) :
    ∀ t : ProductionNode, ∀ s : Totals, s.alts.Nodup → (traverseNode m t s).alts.Nodup := by
  apply ProductionNode.strong_ind
    (motive := fun t => ∀ s : Totals, s.alts.Nodup → (traverseNode m t s).alts.Nodup)
  intro res q rc bt bc d cs ihcs s hs
  have hforest : ∀ (l : List ProductionNode),
      (∀ c ∈ l, ∀ s : Totals, s.alts.Nodup → (traverseNode m c s).alts.Nodup) →
      ∀ s : Totals, s.alts.Nodup → (traverseForest m l s).alts.Nodup := by
    intro l
    induction l with
    | nil =>
      intro _ s hs2
      rw [traverseForest_nil]
      exact hs2
    | cons c cs2 ihl =>
      intro hmem s hs2
      rw [traverseForest_cons]
      exact ihl (fun c' hc' => hmem c' (List.mem_cons_of_mem _ hc')) _
        (hmem c (List.mem_cons_self _ _) s hs2)
  rw [traverseNode_mk]
  apply hforest cs ihcs
  cases rc with
  | none =>
    cases hb : BASE_RESOURCES.contains res <;> simp [hb, hs]
  | some r =>
    cases halt : r.alternate_recipe with
    | true =>
      by_cases hmem : r.display_name ∈ s.alts
      · simp [halt, hmem, hs]
      · simp [halt, hmem, hs, List.nodup_append]
    | false =>
      simp [halt, hs]

/-! ### Building-count invariants of the chain builder -/

theorem lookupD_pos {l : List (String × Nat)} (hpos : ∀ p ∈ l, 0 < p.2) (k : String)
    {d : Nat} (hd : 0 < d) : 0 < lookupD l k d := by
  rw [lookupD]
  cases hfind : List.find? (fun p => p.1 == k) l with
  | some p => exact hpos p (List.mem_of_find?_eq_some hfind)
  | none => exact hd

theorem c2NodeOK_terminal (res : String) (q : ℚ) (bt : String) (d : Nat) :
    c2NodeOK (.mk res q none bt 0 d []) := by
  refine ⟨le_refl 0, ?_, fun _ => rfl⟩
  intro r hr
  simp [ProductionNode.recipe] at hr

theorem flattenNode_leaf (res : String) (q : ℚ) (rc : Option Recipe) (bt : String)
    (bc : ℚ) (d : Nat) :
    flattenNode (.mk res q rc bt bc d []) = [.mk res q rc bt bc d []] := by
  rw [flattenNode, flattenForest]

/-- Every node of a tree built by `_build_chain_recursive` on a valid
catalog, at a positive rate, satisfies the building-count invariants. -/
theorem buildChain_nodes_ok :
    ∀ (fuel : Nat) (C : List Recipe) (res : String) (qpm : ℚ) (visited : List String)
      (depth mp : Nat) (aa : Bool) (aal : Option (List String)) (t : ProductionNode),
      validCatalog C → 0 < qpm →
      buildChain C fuel res qpm visited depth mp aa aal = some t →
      ∀ n ∈ flattenNode t, c2NodeOK n := by
  intro fuel
  induction fuel using Nat.strong_induction_on with
  | _ fuel ih =>
    intro C res qpm visited depth mp aa aal t hC hq h
    match fuel with
    | 0 =>
      rw [buildChain] at h
      cases h
    | m + 1 =>
      rw [buildChain] at h
      split at h
      · cases h
        intro n hn
        rw [flattenNode_leaf, List.mem_singleton] at hn
        subst hn
        exact c2NodeOK_terminal _ _ _ _
      · split at h
        · cases h
          intro n hn
          rw [flattenNode_leaf, List.mem_singleton] at hn
          subst hn
          exact c2NodeOK_terminal _ _ _ _
        · split at h
          · cases h
          · cases h
            intro n hn
            rw [flattenNode_leaf, List.mem_singleton] at hn
            subst hn
            exact c2NodeOK_terminal _ _ _ _
          · rename_i recipe hgbr
            split at h
            · cases h
            · rename_i children hbc
              have hrmem : recipe ∈ C := getBestRecipe_mem hgbr
              have hpt : 0 < recipe.production_time := (hC recipe hrmem).1
              have hinpos : ∀ p ∈ recipe.inputs, 0 < p.2 := (hC recipe hrmem).2.1
              have houtpos : ∀ p ∈ recipe.outputs, 0 < p.2 := (hC recipe hrmem).2.2
              have houtA : 0 < lookupD recipe.outputs res 1 :=
                lookupD_pos houtpos res (by norm_num)
              have houtAQ : 0 < (lookupD recipe.outputs res 1 : ℚ) := by exact_mod_cast houtA
              have hdiv : 0 < (lookupD recipe.outputs res 1 : ℚ) * (60 / recipe.production_time) :=
                mul_pos houtAQ (div_pos (by norm_num) hpt)
              have hchild : ∀ (inputs : List (String × Nat)) (cl : List ProductionNode),
                  (∀ p ∈ inputs, 0 < p.2) →
                  buildChildren C m (res :: visited) (depth + 1) mp aa aal
                    (lookupD recipe.outputs res 1) qpm inputs = some cl →
                  ∀ t' ∈ cl, ∀ n ∈ flattenNode t', c2NodeOK n := by
                intro inputs
                induction inputs with
                | nil =>
                  intro cl _ hcl t' ht'
                  rw [buildChildren] at hcl
                  cases hcl
                  simp at ht'
                | cons p rest ihp =>
                  intro cl hpos hcl t' ht'
                  obtain ⟨ires, iamt⟩ := p
                  rw [buildChildren] at hcl
                  split at hcl
                  · exact ihp cl (fun p hp => hpos p (List.mem_cons_of_mem _ hp)) hcl t' ht'
                  · split at hcl
                    · cases hcl
                    · rename_i child hbuild
                      split at hcl
                      · cases hcl
                      · rename_i l2 hl2
                        cases hcl
                        have hiamt : 0 < iamt := hpos (ires, iamt) (List.mem_cons_self _ _)
                        have hiamtQ : 0 < (iamt : ℚ) := by exact_mod_cast hiamt
                        have hrate2 : 0 < (iamt : ℚ) / (lookupD recipe.outputs res 1 : ℚ) * qpm :=
                          mul_pos (div_pos hiamtQ houtAQ) hq
                        rcases List.mem_cons.mp ht' with h1 | h1
                        · subst h1
                          exact ih m (Nat.lt_succ_self m) C ires _ (res :: visited) (depth + 1)
                            mp aa aal t' hC hrate2 hbuild
                        · exact ihp l2 (fun p hp => hpos p (List.mem_cons_of_mem _ hp)) hl2 t' h1
              split at h
              · cases h
                intro n hn
                rw [flattenNode_leaf, List.mem_singleton] at hn
                subst hn
                exact c2NodeOK_terminal _ _ _ _
              · cases h
                intro n hn
                rw [flattenNode] at hn
                rcases List.mem_cons.mp hn with h1 | h1
                · subst h1
                  refine ⟨le_of_lt (div_pos hq hdiv), ?_, ?_⟩
                  · intro r hr
                    simp only [ProductionNode.recipe] at hr
                    cases hr
                    rfl
                  · intro h0
                    exact absurd h0 (ne_of_gt (div_pos hq hdiv))
                · rw [mem_flattenForest] at h1
                  obtain ⟨c, hc, hnc⟩ := h1
                  exact hchild recipe.inputs children hinpos hbc c hc n hnc


/-! ### Claim theorems -/

theorem buildChildren_allNone {C : List Recipe} {fuel : Nat} {visited : List String}
    {depth mp : Nat} {aa : Bool} {aal : Option (List String)} {outA : Nat} {qpm : ℚ} :
    ∀ {inputs : List (String × Nat)}, inputs.all (fun p => p.1 == "NONE") = true →
      buildChildren C fuel visited depth mp aa aal outA qpm inputs = some [] := by
  intro inputs
  induction inputs with
  | nil =>
    intro _
    rw [buildChildren]
  | cons p rest ih =>
    intro hall
    obtain ⟨ires, iamt⟩ := p
    rw [List.all_cons, Bool.and_eq_true] at hall
    have h1 : ires = "NONE" := beq_iff_eq.mp hall.1
    rw [buildChildren, if_pos h1]
    exact ih hall.2

theorem getTotalRequirements_raw (m : List (String × String)) (t : ProductionNode) :
    (getTotalRequirements m t).raw = (traverseNode m t ⟨[], [], []⟩).raw := rfl

theorem getTotalRequirements_buildings (m : List (String × String)) (t : ProductionNode) :
    (getTotalRequirements m t).buildings = (traverseNode m t ⟨[], [], []⟩).buildings := rfl

theorem getTotalRequirements_alts (m : List (String × String)) (t : ProductionNode) :
    (getTotalRequirements m t).alts
      = List.insertionSort (· ≤ ·) (traverseNode m t ⟨[], [], []⟩).alts := rfl

/-- C1: the claim asserts cycle safety, but the code diverges on the
failing input: on the catalog `CcycAB` (recipe `rec_a` consumes `B_ITEM`
to make `A_ITEM`, recipe `rec_b` consumes `A_ITEM` to make `B_ITEM`,
neither resource base), `calculate_production_chain` on either resource
never returns for any requested rate: at every fuel bound the fuel
semantics still yields `none`, because `get_best_recipe`'s reachability
filter restarts `_get_raw_cost_recursive` from a fresh empty visited set
(calculator.py line 320), so the A/B alternation never reaches the
"CIRCULAR" handling of `_build_chain_recursive`. In Python this is an
unbounded mutual recursion (`RecursionError`), not a "CIRCULAR"
terminal. -/
theorem c1_cyclic_divergence : ∀ (fuel : Nat) (rate : ℚ),
    calculateProductionChain CcycAB fuel "A_ITEM" rate 1 true none = none ∧
    calculateProductionChain CcycAB fuel "B_ITEM" rate 1 true none = none := by
  intro fuel rate
  cases fuel with
  | zero =>
    constructor <;> rw [calculateProductionChain, buildChain]
  | succ m =>
    have h := cycAB_diverges m
    constructor
    · rw [calculateProductionChain, buildChain]
      simp +decide [h.1 true none]
    · rw [calculateProductionChain, buildChain]
      simp +decide [h.2.1 true none]

/-- C3: on the catalog `Cplate`, where the first candidate in catalog
order (`plate_cheap`, 1 UNOBTANIUM per PLATE) has an unresolvable
non-base input and the second (`plate_ore`, 9 ORE per PLATE) uses only
base resources at a much higher raw cost, `get_best_recipe` discards the
unproducible candidate (UNOBTANIUM's estimated cost is the 999999
sentinel) and returns the producible one. -/
theorem c3_producible_preferred :
    getBestRecipe Cplate 6 "PLATE" 1 true true none = some (some plateOre) ∧
    recipesByOutput Cplate "PLATE" = [plateCheap, plateOre] ∧
    rawCostRecursive Cplate 6 "UNOBTANIUM" 1 true [] none = some 999999 ∧
    filterValid Cplate 5 1 true (policyCandidates Cplate "PLATE" 1 true none)
      = some [plateOre] := by
  refine ⟨?_, ?_, ?_, ?_⟩ <;>
    simp +decide [getBestRecipe, filterValid, allInputsProducible, effCosts, effInputsCost,
      rawCostRecursive, inputsCost, policyCandidates, phaseCandidates, recipesByOutput,
      lookupD, selectBest, Cplate, plateCheap, plateOre, mkR, BASE_RESOURCES]

/-- C4: the alternate-recipe policy of `get_best_recipe`: (a) with
`allow_alternate` false every alternate recipe is excluded, whatever the
allow-list; (b) with alternates allowed and an allow-list present, an
alternate phase-qualified recipe is a candidate iff its id is listed;
(c) a non-alternate phase-qualified recipe is never excluded by the
list; (d) whatever the flag, every alternate recipe surviving the policy
filter has its id in the list. -/
theorem c4_alternate_policy (C : List Recipe) (res : String) (mp : Nat) (L : List String)
    (aal : Option (List String)) (r : Recipe) :
    (r ∈ policyCandidates C res mp false aal → r.alternate_recipe = false) ∧
    (r ∈ phaseCandidates C res mp → r.alternate_recipe = true →
      (r ∈ policyCandidates C res mp true (some L) ↔ r.id ∈ L)) ∧
    (r ∈ phaseCandidates C res mp → r.alternate_recipe = false →
      r ∈ policyCandidates C res mp true (some L)) ∧
    (∀ b : Bool, r ∈ policyCandidates C res mp b (some L) → r.alternate_recipe = true →
      r.id ∈ L) := by
  refine ⟨?_, ?_, ?_, ?_⟩
  · intro h
    rw [policyCandidates.eq_def] at h
    simp only [Bool.not_false, if_true] at h
    have := (List.mem_filter.mp h).2
    simpa using this
  · intro hp halt
    constructor
    · intro h
      rw [policyCandidates.eq_def] at h
      simp only [Bool.not_true, Bool.false_eq_true, if_false] at h
      have := (List.mem_filter.mp h).2
      rw [halt] at this
      simp only [Bool.not_true, Bool.false_or] at this
      simpa using this
    · intro hid
      rw [policyCandidates.eq_def]
      simp only [Bool.not_true, Bool.false_eq_true, if_false]
      refine List.mem_filter.mpr ⟨hp, ?_⟩
      rw [halt]
      simp only [Bool.not_true, Bool.false_or]
      simpa using hid
  · intro hp halt
    rw [policyCandidates.eq_def]
    simp only [Bool.not_true, Bool.false_eq_true, if_false]
    refine List.mem_filter.mpr ⟨hp, ?_⟩
    rw [halt]
    simp
  · intro b h halt
    cases b with
    | false =>
      rw [policyCandidates.eq_def] at h
      simp only [Bool.not_false, if_true] at h
      have := (List.mem_filter.mp h).2
      rw [halt] at this
      simp at this
    | true =>
      rw [policyCandidates.eq_def] at h
      simp only [Bool.not_true, Bool.false_eq_true, if_false] at h
      have := (List.mem_filter.mp h).2
      rw [halt] at this
      simp only [Bool.not_true, Bool.false_or] at this
      simpa using this

theorem c4_witness :
    (altP ∈ policyCandidates C4cat "PITEM" 1 false none → altP.alternate_recipe = false) ∧
    (altP ∈ policyCandidates C4cat "PITEM" 1 true (some ["alt_p"]) ↔ "alt_p" ∈ ["alt_p"]) ∧
    mainP ∈ policyCandidates C4cat "PITEM" 1 true (some []) := by
  have h1 := (c4_alternate_policy C4cat "PITEM" 1 ["alt_p"] none altP).1
  have h2 := (c4_alternate_policy C4cat "PITEM" 1 ["alt_p"] none altP).2.1
    (by simp +decide [phaseCandidates, recipesByOutput, C4cat, altP, mainP, mkR])
    (by decide)
  have h3 := (c4_alternate_policy C4cat "PITEM" 1 [] none mainP).2.2.1
    (by simp +decide [phaseCandidates, recipesByOutput, C4cat, altP, mainP, mkR])
    (by decide)
  exact ⟨h1, h2, h3⟩

/-- C7: when a non-base, not-yet-visited resource resolves to a recipe
whose inputs are all the `'NONE'` placeholder (or empty), the recursion
produces zero children and `_build_chain_recursive` demotes the node to
a terminal "NO RECIPE" node with no recipe and building_count 0. -/
theorem c7_demotion (C : List Recipe) (fuel : Nat) (res : String) (q : ℚ)
    (visited : List String) (depth mp : Nat) (aa : Bool) (aal : Option (List String))
    (r : Recipe)
    (hbase : BASE_RESOURCES.contains res = false)
    (hvis : visited.contains res = false)
    (hgbr : getBestRecipe C fuel res mp true aa aal = some (some r))
    (hnone : r.inputs.all (fun p => p.1 == "NONE") = true) :
    buildChain C (fuel + 1) res q visited depth mp aa aal =
      some (.mk res q none "NO RECIPE" 0 depth []) := by
  rw [buildChain]
  simp only [hbase, hvis, Bool.false_eq_true, if_false, hgbr,
    buildChildren_allNone hnone]
  simp

theorem c7_witness :
    calculateProductionChain C7cat 3 "GADGET" 10 1 true none =
      some (.mk "GADGET" 10 none "NO RECIPE" 0 0 []) := by
  have h := c7_demotion C7cat 2 "GADGET" 10 [] 0 1 true none freebie
    (by decide) (by decide)
    (by simp +decide [getBestRecipe, filterValid, allInputsProducible, effCosts, effInputsCost,
      rawCostRecursive, inputsCost, policyCandidates, phaseCandidates, recipesByOutput,
      lookupD, selectBest, C7cat, freebie, mkR, BASE_RESOURCES])
    (by decide)
  exact h

/-- C8: for any resource of the fixed `BASE_RESOURCES` set and any
requested rate, `calculate_production_chain` returns the terminal
"Miner/Extractor" node with no recipe and the rate passed through
unchanged — for every catalog `C`, including catalogs containing a
recipe whose outputs include that resource, which is what makes the
statement independent of `get_best_recipe`. -/
theorem c8_base_short_circuit (C : List Recipe) (fuel : Nat) (res : String) (q : ℚ)
    (mp : Nat) (aa : Bool) (aal : Option (List String))
    (hres : BASE_RESOURCES.contains res = true) :
    calculateProductionChain C (fuel + 1) res q mp aa aal =
      some (.mk res q none "Miner/Extractor" 0 0 []) := by
  rw [calculateProductionChain, buildChain]
  simp only [hres, if_true]

theorem c8_witness :
    calculateProductionChain C8cat 1 "ORE" 42 1 true none =
      some (.mk "ORE" 42 none "Miner/Extractor" 0 0 []) :=
  c8_base_short_circuit C8cat 0 "ORE" 42 1 true none (by decide)


/-- C2 as stated is falsified at requested rate 0 (which the claim
includes via "every requested rate ≥ 0"): on the iron-ingot catalog the
root node is resolved (it carries the iron_ingot recipe) yet its
building_count is 0, contradicting "building_count is 0 only for
unresolved nodes". -/
theorem c2_counterexample :
    calculateProductionChain Ciron 3 "IRON_INGOT" 0 1 true none = some ironTreeZero ∧
    ironTreeZero.recipe = some ironIngot ∧
    ironTreeZero.building_count = 0 := by
  refine ⟨?_, rfl, rfl⟩
  simp +decide [calculateProductionChain, buildChain, buildChildren, getBestRecipe, filterValid,
    allInputsProducible, rawCostRecursive, inputsCost, effCosts, effInputsCost, policyCandidates,
    phaseCandidates, recipesByOutput, lookupD, selectBest, Ciron, ironIngot, ironTreeZero, mkR,
    BASE_RESOURCES]

/-- C2 amended: on a catalog with positive production times and positive
input/output quantities, and for every requested rate > 0, every node of
the tree satisfies: building_count ≥ 0; a resolved node carries exactly
`rate / (outputs[resource] × 60/production_time)`; and building_count = 0
only on unresolved nodes. -/
theorem c2_amended (C : List Recipe) (fuel : Nat) (res : String) (rate : ℚ) (mp : Nat)
    (aa : Bool) (aal : Option (List String)) (t : ProductionNode)
    (hC : validCatalog C) (hrate : 0 < rate)
    (h : calculateProductionChain C fuel res rate mp aa aal = some t) :
    ∀ n ∈ flattenNode t, c2NodeOK n := by
  rw [calculateProductionChain] at h
  exact buildChain_nodes_ok fuel C res rate [] 0 mp aa aal t hC hrate h

theorem c2_witness : c2NodeOK ironTree30 := by
  have h : calculateProductionChain Ciron 3 "IRON_INGOT" 30 1 true none = some ironTree30 := by
    norm_num +decide [calculateProductionChain, buildChain, buildChildren, getBestRecipe,
      filterValid, allInputsProducible, rawCostRecursive, inputsCost, effCosts, effInputsCost,
      policyCandidates, phaseCandidates, recipesByOutput, lookupD, selectBest, Ciron, ironIngot,
      ironTree30, mkR, BASE_RESOURCES]
  have hvc : validCatalog Ciron := by
    norm_num +decide [validCatalog, Ciron, ironIngot, mkR]
  exact c2_amended Ciron 3 "IRON_INGOT" 30 1 true none ironTree30 hvc (by norm_num) h
    ironTree30 (self_mem_flattenNode _)

/-- C5: the efficiency ranking of `get_best_recipe`. With the candidate
set nonempty, the reachability filter yielding valid candidates
`v0 :: vs` and the per-candidate raw costs `pairs` computed: when
efficiency preference is off or a single valid candidate remains, the
first (catalog-order) candidate is returned; when it is on and several
remain, the returned recipe sits at a position of `pairs` whose cost is
strictly below every earlier candidate's and at most every later
candidate's (strictly lowest cost, ties to the first seen). The costs
are computed by `effCosts` exactly as the claim's formula (sum over
inputs of (input_qty/output_qty) × the input's recursive raw cost, base
inputs costing 1), and the valid candidates are a sublist of the
catalog-ordered candidate list. -/
theorem c5_efficiency_selection (C : List Recipe) (fuel : Nat) (res : String) (mp : Nat)
    (aa : Bool) (aal : Option (List String)) (pe : Bool) (v0 : Recipe) (vs : List Recipe)
    (pairs : List (Recipe × ℚ))
    (hne : (policyCandidates C res mp aa aal).isEmpty = false)
    (hvalid : filterValid C fuel mp aa (policyCandidates C res mp aa aal) = some (v0 :: vs))
    (hpairs : effCosts C fuel res mp aa aal (v0 :: vs) = some pairs) :
    ((pe = false ∨ vs = []) → getBestRecipe C (fuel + 1) res mp pe aa aal = some (some v0))
    ∧ (pe = true → vs ≠ [] →
        ∃ r pre c post,
          getBestRecipe C (fuel + 1) res mp pe aa aal = some (some r)
          ∧ pairs = pre ++ (r, c) :: post
          ∧ (∀ p ∈ pre, c < p.2) ∧ (∀ p ∈ post, c ≤ p.2))
    ∧ pairs.map Prod.fst = v0 :: vs
    ∧ (v0 :: vs).Sublist (policyCandidates C res mp aa aal) := by
  have hfst := effCosts_fst hpairs
  have hsub := filterValid_sublist hvalid
  refine ⟨?_, ?_, hfst, hsub⟩
  · intro hcase
    rw [getBestRecipe]
    simp only [hne, Bool.false_eq_true, if_false, hvalid]
    rcases hcase with hpe | hvs
    · simp [hpe]
    · simp [hvs]
  · intro hpe hvs
    subst hpe
    obtain ⟨w, ws, rfl⟩ := List.exists_cons_of_ne_nil hvs
    match pairs, hfst with
    | (r1, c1) :: ps, hfst =>
      have hgbr : getBestRecipe C (fuel + 1) res mp true aa aal
          = some (some (selectBest v0 none ((r1, c1) :: ps))) := by
        rw [getBestRecipe]
        simp only [hne, Bool.false_eq_true, if_false, hvalid, hpairs]
        simp
      obtain ⟨pre, c, post, hsplit, hpre, hpost⟩ := selectBest_none_spec v0 r1 c1 ps
      exact ⟨selectBest v0 none ((r1, c1) :: ps), pre, c, post, hgbr, hsplit, hpre, hpost⟩

theorem c5_witness : getBestRecipe Ceff 5 "QITEM" 1 false true none = some (some qA) := by
  have h := c5_efficiency_selection Ceff 4 "QITEM" 1 true none false qA [qB]
    [(qA, 4), (qB, 2)]
    (by simp +decide [policyCandidates, phaseCandidates, recipesByOutput, Ceff, qA, qB, mkR])
    (by simp +decide [filterValid, allInputsProducible, rawCostRecursive, inputsCost,
      getBestRecipe, effCosts, effInputsCost, policyCandidates, phaseCandidates,
      recipesByOutput, lookupD, selectBest, Ceff, qA, qB, mkR, BASE_RESOURCES])
    (by simp +decide [effCosts, effInputsCost, rawCostRecursive, inputsCost, getBestRecipe,
      filterValid, allInputsProducible, policyCandidates, phaseCandidates, recipesByOutput,
      lookupD, selectBest, Ceff, qA, qB, mkR, BASE_RESOURCES])
  exact h.1 (Or.inl rfl)

/-- C6: for a display map and any tree whose base-resource nodes are
unresolved terminals and whose "CIRCULAR"/"NO RECIPE"-labelled nodes are
unresolved non-base nodes, `get_total_requirements` returns: raw totals
equal to the per-display-name sums of rate over exactly the terminal
base-resource nodes; building totals equal to the per-building-type sums
of building_count over exactly the resolved nodes; alternate_recipes a
sorted duplicate-free list containing exactly the display names of the
alternate recipes used in the tree; and "CIRCULAR"/"NO RECIPE" nodes
match neither sum's predicate (they contribute to no total). -/
theorem c6_totals (m : List (String × String)) (t : ProductionNode)
    (hbase : ∀ n ∈ flattenNode t, BASE_RESOURCES.contains n.resource = true →
      n.recipe = none ∧ n.children = [])
    (hlab : ∀ n ∈ flattenNode t,
      (n.building_type = "CIRCULAR" ∨ n.building_type = "NO RECIPE") →
      n.recipe = none ∧ BASE_RESOURCES.contains n.resource = false) :
    (∀ name, lookupQ (getTotalRequirements m t).raw name = rawSumSpec m (flattenNode t) name)
    ∧ (∀ bt, lookupQ (getTotalRequirements m t).buildings bt = buildSumSpec (flattenNode t) bt)
    ∧ List.Sorted (· ≤ ·) (getTotalRequirements m t).alts
    ∧ (getTotalRequirements m t).alts.Nodup
    ∧ (∀ x, x ∈ (getTotalRequirements m t).alts ↔ x ∈ altNamesOf (flattenNode t))
    ∧ (∀ n ∈ flattenNode t,
        (n.building_type = "CIRCULAR" ∨ n.building_type = "NO RECIPE") →
        (n.children.isEmpty && BASE_RESOURCES.contains n.resource) = false
          ∧ n.recipe.isSome = false) := by
  refine ⟨?_, ?_, ?_, ?_, ?_, ?_⟩
  · intro name
    have hfeq : (flattenNode t).filter
        (fun n => n.recipe.isNone && BASE_RESOURCES.contains n.resource
          && (getDisplayName m n.resource == name))
        = (flattenNode t).filter
        (fun n => n.children.isEmpty && BASE_RESOURCES.contains n.resource
          && (getDisplayName m n.resource == name)) := by
      apply List.filter_congr
      intro n hn
      cases hb : BASE_RESOURCES.contains n.resource with
      | false => simp [hb]
      | true =>
        obtain ⟨h1, h2⟩ := hbase n hn hb
        simp [hb, h1, h2]
    rw [getTotalRequirements_raw, traverse_raw m name t ⟨[], [], []⟩]
    have hz : lookupQ (Totals.mk [] [] []).raw name = 0 := rfl
    rw [hz, zero_add, codeRawSum, rawSumSpec, hfeq]
  · intro bt
    rw [getTotalRequirements_buildings, traverse_buildings m bt t ⟨[], [], []⟩]
    have hz : lookupQ (Totals.mk [] [] []).buildings bt = 0 := rfl
    rw [hz, zero_add]
  · rw [getTotalRequirements_alts]
    exact List.sorted_insertionSort _ _
  · rw [getTotalRequirements_alts]
    have hnd : (traverseNode m t ⟨[], [], []⟩).alts.Nodup :=
      traverse_alts_nodup m t ⟨[], [], []⟩ List.nodup_nil
    exact ((List.perm_insertionSort _ _).symm).nodup hnd
  · intro x
    rw [getTotalRequirements_alts, List.mem_insertionSort,
      traverse_alts_mem m x t ⟨[], [], []⟩]
    simp
  · intro n hn hl
    obtain ⟨h1, h2⟩ := hlab n hn hl
    refine ⟨?_, ?_⟩
    · rw [h2, Bool.and_false]
    · rw [h1]
      rfl

theorem c6_witness :
    lookupQ (getTotalRequirements c6map c6tree).raw "Iron Ore" = 30 ∧
    lookupQ (getTotalRequirements c6map c6tree).buildings "Assembler" = 1 ∧
    "alt_p" ∈ (getTotalRequirements c6map c6tree).alts := by
  have h := c6_totals c6map c6tree
    (by simp +decide [flattenNode, flattenForest, c6tree, altP, mkR, BASE_RESOURCES,
      ProductionNode.resource, ProductionNode.recipe, ProductionNode.children])
    (by simp +decide [flattenNode, flattenForest, c6tree, altP, mkR, BASE_RESOURCES,
      ProductionNode.resource, ProductionNode.recipe, ProductionNode.building_type])
  refine ⟨?_, ?_, ?_⟩
  · rw [h.1 "Iron Ore"]
    simp +decide [rawSumSpec, flattenNode, flattenForest, c6tree, c6map, getDisplayName,
      altP, mkR, BASE_RESOURCES, ProductionNode.resource, ProductionNode.recipe,
      ProductionNode.children, ProductionNode.quantity_per_minute]
  · rw [h.2.1 "Assembler"]
    simp +decide [buildSumSpec, flattenNode, flattenForest, c6tree, altP, mkR,
      ProductionNode.recipe, ProductionNode.building_type, ProductionNode.building_count]
  · rw [h.2.2.2.2.1 "alt_p"]
    simp +decide [altNamesOf, flattenNode, flattenForest, c6tree, altP, mkR,
      ProductionNode.recipe]

/-- C9: the reachability filter estimates input costs without the
allow-list (calculator.py line 320 omits `allowed_alternates`), while the
efficiency ranking passes it (line 339). Consequently, on `C9cat`
(GADGET2 needs WIDGET; WIDGET is producible only via the alternate
recipe alt_widget) with the empty allow-list: WIDGET's raw cost honoring
the list is the 999999 sentinel, its cost ignoring the list is 1, and
the GADGET2 candidate is not discarded as unreachable. -/
theorem c9_filter_ignores_allowlist :
    getBestRecipe C9cat 6 "GADGET2" 1 true true (some []) = some (some gadgetR) ∧
    rawCostRecursive C9cat 6 "WIDGET" 1 true [] (some []) = some 999999 ∧
    rawCostRecursive C9cat 6 "WIDGET" 1 true [] none = some 1 := by
  refine ⟨?_, ?_, ?_⟩ <;>
    simp +decide [getBestRecipe, filterValid, allInputsProducible, effCosts, effInputsCost,
      rawCostRecursive, inputsCost, policyCandidates, phaseCandidates, recipesByOutput,
      lookupD, selectBest, C9cat, gadgetR, altWidget, mkR, BASE_RESOURCES]

/-- C10: the reachability threshold is 9999 while the sentinel of
`_get_raw_cost_recursive` is 999999 (returned for a resource already on
the visited path, for a resource with no qualifying recipe, and for a
zero-valid-input recipe). On `C10cat`: EXP is genuinely producible at
raw cost 10000 ≥ 9999, so the THING candidate is discarded
(`get_best_recipe` returns none); while RITEM's raw cost under the empty
allow-list is the sentinel diluted by its 200-fold output to
999999/200 < 9999, and the THING2 candidate consuming RITEM is not
discarded — it is even selected by the ranking that computes that
diluted value. -/
theorem c10_threshold_vs_sentinel :
    rawCostRecursive C10cat 6 "EXP" 1 true [] none = some 10000 ∧
    (9999 : ℚ) ≤ 10000 ∧
    getBestRecipe C10cat 6 "THING" 1 true true none = some none ∧
    rawCostRecursive C10cat 6 "RITEM" 1 true [] (some []) = some (999999 / 200) ∧
    (999999 : ℚ) / 200 < 9999 ∧
    getBestRecipe C10cat 6 "THING2" 1 true true (some []) = some (some t2main) ∧
    rawCostRecursive C10cat 1 "LOOP_ITEM" 1 true ["LOOP_ITEM"] none = some 999999 ∧
    rawCostRecursive C7cat 3 "GADGET" 1 true [] none = some 999999 ∧
    rawCostRecursive [] 2 "NOWHERE" 1 true [] none = some 999999 := by
  refine ⟨?_, by norm_num, ?_, ?_, by norm_num, ?_, ?_, ?_, ?_⟩ <;>
    norm_num +decide [getBestRecipe, filterValid, allInputsProducible, effCosts, effInputsCost,
      rawCostRecursive, inputsCost, policyCandidates, phaseCandidates, recipesByOutput,
      lookupD, selectBest, C10cat, C7cat, expR, thingR, altA, rBulk, t2main, t2backup,
      freebie, mkR, BASE_RESOURCES]

end Arcane
